import Mathlib

/-!
Shallow embedding of the Todo-list application from the comparison
repository (README code listings: the React `App.tsx` handlers
`toggleTodo` and `addTodo`, the Svelte `todoListStore` and the
`AddTodoForm` click handlers).

Records are JavaScript objects; the host language compares them with
reference equality (`todo === selectedTodo`).  We model a reference as a
natural-number tag `ref` carried next to the record value, and we model
allocation of a fresh object (an object literal such as
`{ ...todo, complete: !todo.complete }` or `{ text, complete: false }`)
by drawing tags from a counter `nextRef` that grows past every tag
handed out so far.  Any injective fresh-tag policy is observationally
equivalent to JavaScript allocation; ours hands the replacement object
at list position `i` the tag `nextRef + i`.
-/

set_option autoImplicit false

namespace Comparison

/-- The task record of `types.tsx`: `{ text: string, complete: boolean }`. -/
structure Todo where
  text : String
  complete : Bool
deriving DecidableEq, Repr

/-- A JavaScript object reference holding a task record: the identity tag
`ref` models the object reference that `===` compares. -/
structure TodoObj where
  ref : Nat
  val : Todo
deriving DecidableEq, Repr

/-- The application state: the `todos` array of object references plus the
fresh-reference counter that models the allocator. -/
structure AppState where
  todos : List TodoObj
  nextRef : Nat
deriving DecidableEq, Repr

/-- Embedding of `addTodo` from `App.tsx`:
`const newTodo = { text, complete: false }; setTodos([...todos, newTodo])`.
The object literal allocates a fresh reference. -/
def addTodo (text : String) (st : AppState) : AppState :=
  { todos := st.todos ++ [{ ref := st.nextRef, val := { text := text, complete := false } }]
    nextRef := st.nextRef + 1 }

/-- The body of the `todos.map` callback in `toggleTodo`, threaded over the
list: an element whose reference equals `selectedTodo` is replaced by a
freshly allocated object with `complete` inverted
(`{ ...todo, complete: !todo.complete }`); every other element is returned
as is.  `base + i` is the fresh tag for position `i`. -/
def toggleFrom (selected : TodoObj) (base : Nat) : List TodoObj → List TodoObj
  | [] => []
  | t :: ts =>
    (if t.ref = selected.ref
     then { ref := base, val := { text := t.val.text, complete := !t.val.complete } }
     else t) :: toggleFrom selected (base + 1) ts

/-- Embedding of `toggleTodo` from `App.tsx`:
`const newTodos = todos.map((todo) => todo === selectedTodo ? { ...todo, complete: !todo.complete } : todo); setTodos(newTodos)`. -/
def toggleTodo (selected : TodoObj) (st : AppState) : AppState :=
  { todos := toggleFrom selected st.nextRef st.todos
    nextRef := st.nextRef + st.todos.length }

/-- A state-changing operation of the application: the two handlers. -/
inductive Op where
  | add (text : String)
  | toggle (selected : TodoObj)
deriving DecidableEq, Repr

/-- Apply one operation to the application state. -/
def applyOp (st : AppState) : Op → AppState
  | .add text => addTodo text st
  | .toggle selected => toggleTodo selected st

/-- Apply a sequence of operations left to right. -/
def applyOps (st : AppState) (ops : List Op) : AppState :=
  ops.foldl applyOp st

/-- The handlers with the host error channel kept explicit: a handler body
that threw would land in `.error`, but neither `addTodo` nor `toggleTodo`
contains a `throw`, an assertion or a fallible call, so every branch of
both handlers ends in `.ok`. -/
def applyOpE (st : AppState) (op : Op) : Except String AppState :=
  match op with
  | .add text => .ok (addTodo text st)
  | .toggle selected => .ok (toggleTodo selected st)

/-- Fold a list of adds, as in repeated clicks of the add button. -/
def addAll (texts : List String) (st : AppState) : AppState :=
  texts.foldl (fun s t => addTodo t s) st

/-- Modelled from the spec: the repository stores the collection in a
Svelte `writable` store (`todoListStore.ts`), whose implementation is not
in the source tree.  Per the spec, the store holds the current collection
and, on each replacement of the value, synchronously invokes every
registered observer with the new value, in registration order, once per
replacement.  We record each observer as the log of collection values it
has received, in order; `subs` lists the observers in registration
order. -/
structure Store where
  state : AppState
  subs : List (List (List TodoObj))
deriving DecidableEq, Repr

/-- Modelled from the spec: replacing the store value notifies every
current observer once, synchronously, in registration order, with the new
collection. -/
def Store.commit (s : Store) (st : AppState) : Store :=
  { state := st
    subs := s.subs.map (fun log => log ++ [st.todos]) }

/-- Modelled from the spec: registering an observer appends it to the
observer list; it has received nothing yet. -/
def Store.subscribe (s : Store) : Store :=
  { s with subs := s.subs ++ [[]] }

/-- Register `n` observers one after the other. -/
def subscribeN : Store → Nat → Store
  | s, 0 => s
  | s, n + 1 => subscribeN s.subscribe n

/-- Run one state-changing operation through the store: compute the new
collection with the handler and commit it. -/
def Store.apply (s : Store) (op : Op) : Store :=
  s.commit (applyOp s.state op)

/-- Run a sequence of operations through the store. -/
def runOps (s : Store) (ops : List Op) : Store :=
  ops.foldl Store.apply s

/-- The successive collection values produced by a sequence of operations:
entry `k` is the collection right after operation `k`. -/
def trace (st : AppState) : List Op → List (List TodoObj)
  | [] => []
  | op :: ops => (applyOp st op).todos :: trace (applyOp st op) ops

/-- Embedding of the `AddTodoForm` component state: the local `text`
variable plus the shared store. -/
structure FormState where
  text : String
  store : Store
deriving DecidableEq, Repr

/-- Embedding of the `AddTodoForm.svelte` click handler:
`$todoListStore = [...$todoListStore, { text, complete: false }]; text = ''`.
The React form does the same through `addTodo(text); setText('')`. -/
def clickAddTodo (fs : FormState) : FormState :=
  { text := ""
    store := fs.store.commit (addTodo fs.text fs.store.state) }

/-- The objects a run of adds allocates: one fresh record per text, tags
drawn consecutively from `base`, `complete` defaulted to `false`. -/
def freshTodos (base : Nat) : List String → List TodoObj
  | [] => []
  | t :: ts => { ref := base, val := { text := t, complete := false } } :: freshTodos (base + 1) ts

/-- A sample record for concrete instantiations. -/
def sampleTodoA : TodoObj := { ref := 0, val := { text := "a", complete := false } }

/-- A second sample record for concrete instantiations. -/
def sampleTodoB : TodoObj := { ref := 1, val := { text := "b", complete := true } }

/-- A one-record sample state whose fresh counter is past every tag. -/
def singleState : AppState := { todos := [sampleTodoA], nextRef := 1 }

/-- A two-record sample state whose fresh counter is past every tag. -/
def sampleState : AppState := { todos := [sampleTodoA, sampleTodoB], nextRef := 2 }

/-! Basic lemmas about the operations. -/

theorem toggleFrom_length (selected : TodoObj) (base : Nat) (ts : List TodoObj) :
    (toggleFrom selected base ts).length = ts.length := by
  induction ts generalizing base with
  | nil => rfl
  | cons t ts ih => simp [toggleFrom, ih]

theorem toggleTodo_length (selected : TodoObj) (st : AppState) :
    (toggleTodo selected st).todos.length = st.todos.length :=
  toggleFrom_length selected st.nextRef st.todos

theorem toggleFrom_getElem? (selected : TodoObj) (base : Nat) (ts : List TodoObj)
    (i : Nat) :
    (toggleFrom selected base ts)[i]? =
      (ts[i]?).map (fun t =>
        if t.ref = selected.ref
        then { ref := base + i
               val := { text := t.val.text, complete := !t.val.complete } }
        else t) := by
  induction ts generalizing base i with
  | nil => simp [toggleFrom]
  | cons t ts ih =>
    cases i with
    | zero => simp [toggleFrom]
    | succ j =>
      have := ih (base + 1) j
      simp only [toggleFrom, List.getElem?_cons_succ]
      rw [this]
      have harith : base + 1 + j = base + (j + 1) := by omega
      rw [harith]

theorem toggleTodo_getElem? (selected : TodoObj) (st : AppState) (i : Nat) :
    (toggleTodo selected st).todos[i]? =
      (st.todos[i]?).map (fun t =>
        if t.ref = selected.ref
        then { ref := st.nextRef + i
               val := { text := t.val.text, complete := !t.val.complete } }
        else t) :=
  toggleFrom_getElem? selected st.nextRef st.todos i

theorem toggleFrom_nomatch (selected : TodoObj) (base : Nat) (ts : List TodoObj)
    (h : ∀ t ∈ ts, t.ref ≠ selected.ref) :
    toggleFrom selected base ts = ts := by
  induction ts generalizing base with
  | nil => rfl
  | cons t ts ih =>
    have ht : t.ref ≠ selected.ref := h t (List.mem_cons_self t ts)
    simp only [toggleFrom, if_neg ht]
    rw [ih (base + 1) (fun u hu => h u (List.mem_cons_of_mem t hu))]

theorem addAll_todos (texts : List String) (st : AppState) :
    (addAll texts st).todos = st.todos ++ freshTodos st.nextRef texts := by
  induction texts generalizing st with
  | nil => simp [addAll, freshTodos]
  | cons t ts ih =>
    have hstep : addAll (t :: ts) st = addAll ts (addTodo t st) := rfl
    rw [hstep, ih, freshTodos]
    simp [addTodo, List.append_assoc]

theorem freshTodos_texts (base : Nat) (texts : List String) :
    (freshTodos base texts).map (fun t => t.val.text) = texts := by
  induction texts generalizing base with
  | nil => rfl
  | cons t ts ih => simp [freshTodos, ih]

theorem freshTodos_length (base : Nat) (texts : List String) :
    (freshTodos base texts).length = texts.length := by
  induction texts generalizing base with
  | nil => rfl
  | cons t ts ih => simp [freshTodos, ih]

/-- C2: the add handler performs no validation on its text argument: for
every input string it appends a record carrying exactly that text with
`complete = false`, and in particular the empty string is accepted and
appended rather than rejected. -/
theorem addTodo_no_validation (st : AppState) (text : String) :
    (addTodo text st).todos.map TodoObj.val
        = st.todos.map TodoObj.val ++ [{ text := text, complete := false }] ∧
    (addTodo "" st).todos.map TodoObj.val
        = st.todos.map TodoObj.val ++ [{ text := "", complete := false }] := by
  constructor <;> simp [addTodo]

/-- C3: for every collection and text, the add operation run through the
store produces exactly the old collection with the single record
carrying that text and `complete = false` appended at the end, and that
new collection is the value the store now holds. -/
theorem store_add_appends (s : Store) (text : String) :
    (s.apply (Op.add text)).state.todos
        = s.state.todos
          ++ [{ ref := s.state.nextRef, val := { text := text, complete := false } }] := by
  simp [Store.apply, Store.commit, applyOp, addTodo]

/-- C5: for every finite sequence of adds starting from the empty
collection, the resulting collection has length equal to the number of
adds and the record texts appear in the same order as the add calls. -/
theorem addAll_length_order (texts : List String) (n : Nat) :
    (addAll texts { todos := [], nextRef := n }).todos.length = texts.length ∧
    (addAll texts { todos := [], nextRef := n }).todos.map (fun t => t.val.text) = texts := by
  have h := addAll_todos texts { todos := [], nextRef := n }
  constructor
  · rw [h]; simpa using freshTodos_length n texts
  · rw [h]; simpa using freshTodos_texts n texts

/-- C7: no operation of the state container can fail: for every state,
every text and every record, add and toggle are total functions whose
explicit error channel never carries an error — every branch returns
normally with `.ok`. -/
theorem ops_total_no_error (st : AppState) (op : Op) :
    applyOpE st op = Except.ok (applyOp st op) := by
  cases op <;> rfl

/-- C8: invoking toggle with a record whose reference matches no element
of the collection is a silent no-op: the resulting collection equals the
original, no record is changed and no error is signalled. -/
theorem toggle_missing_noop (st : AppState) (selected : TodoObj)
    (h : ∀ t ∈ st.todos, t.ref ≠ selected.ref) :
    (toggleTodo selected st).todos = st.todos ∧
    applyOpE st (Op.toggle selected) = Except.ok (toggleTodo selected st) :=
  ⟨toggleFrom_nomatch selected st.nextRef st.todos h, rfl⟩

theorem toggle_missing_noop_witness :
    (∀ t ∈ singleState.todos,
        t.ref ≠ ({ ref := 5, val := { text := "a", complete := false } } : TodoObj).ref) ∧
    (toggleTodo { ref := 5, val := { text := "a", complete := false } } singleState).todos
      = singleState.todos :=
  ⟨by decide, (toggle_missing_noop singleState _ (by decide)).1⟩

/-- C9: toggling preserves the length of the collection and the position
of every record: the record at each index of the result has the same text
as the record at that index of the input, and its `complete` value is
either unchanged or inverted. -/
theorem toggle_preserves_length_positions (st : AppState) (selected : TodoObj) :
    (toggleTodo selected st).todos.length = st.todos.length ∧
    ∀ i : Nat,
      ((toggleTodo selected st).todos[i]?).map (fun t => t.val.text)
          = (st.todos[i]?).map (fun t => t.val.text) ∧
      (((toggleTodo selected st).todos[i]?).map (fun t => t.val.complete)
          = (st.todos[i]?).map (fun t => t.val.complete) ∨
       ((toggleTodo selected st).todos[i]?).map (fun t => t.val.complete)
          = (st.todos[i]?).map (fun t => !t.val.complete)) := by
  refine ⟨toggleTodo_length selected st, fun i => ?_⟩
  rw [toggleTodo_getElem?]
  cases hx : st.todos[i]? with
  | none => simp
  | some t =>
    by_cases h : t.ref = selected.ref
    · exact ⟨by simp [h], Or.inr (by simp [h])⟩
    · exact ⟨by simp [h], Or.inl (by simp [h])⟩

/-- C4: toggling a record of the collection leaves every record with a
different reference untouched, text and `complete` both; the record with
the selected reference gets exactly its `complete` inverted and its text
kept. -/
theorem toggle_isolation (st : AppState) (selected : TodoObj)
    (_hmem : selected ∈ st.todos) (i : Nat) (t : TodoObj)
    (hget : st.todos[i]? = some t) :
    (t.ref ≠ selected.ref → (toggleTodo selected st).todos[i]? = some t) ∧
    (t.ref = selected.ref →
      (toggleTodo selected st).todos[i]?
        = some { ref := st.nextRef + i
                 val := { text := t.val.text, complete := !t.val.complete } }) := by
  constructor <;> intro h <;> rw [toggleTodo_getElem?, hget] <;> simp [h]

theorem toggle_isolation_witness :
    sampleTodoA ∈ sampleState.todos ∧
    sampleState.todos[1]? = some sampleTodoB ∧
    sampleTodoB.ref ≠ sampleTodoA.ref ∧
    (toggleTodo sampleTodoA sampleState).todos[1]? = some sampleTodoB :=
  ⟨by decide, by decide, by decide,
    (toggle_isolation sampleState sampleTodoA (by decide) 1 sampleTodoB (by decide)).1
      (by decide)⟩

/-- C1 counterexample: in the one-record collection, invoking toggle twice
with the same record (the same reference both times) does not restore the
original `complete` value: the first toggle replaces the record by a
freshly allocated object, so the second invocation matches nothing and
`complete` stays inverted (`true`, while the original value was
`false`). -/
theorem toggle_twice_same_record_cex :
    sampleTodoA ∈ singleState.todos ∧
    sampleTodoA.val.complete = false ∧
    (toggleTodo sampleTodoA (toggleTodo sampleTodoA singleState)).todos.map
        (fun t => t.val.complete) = [true] ∧
    (toggleTodo sampleTodoA (toggleTodo sampleTodoA singleState)).todos.map
        (fun t => t.val.complete) ≠ [false] :=
  ⟨by decide, by decide, by decide, by decide⟩

/-- C1 (amended): toggling the record at a position and then toggling the
record that replaced it at that position (re-fetched from the collection
produced by the first toggle) yields a collection whose record at that
position again carries the original value: original text and original
`complete`. -/
theorem toggle_twice_refetch (st : AppState) (selected selected2 : TodoObj) (i : Nat)
    (h1 : st.todos[i]? = some selected)
    (h2 : (toggleTodo selected st).todos[i]? = some selected2) :
    ((toggleTodo selected2 (toggleTodo selected st)).todos[i]?).map TodoObj.val
      = some selected.val := by
  have hsel2 : selected2
      = { ref := st.nextRef + i
          val := { text := selected.val.text, complete := !selected.val.complete } } := by
    have h2' := h2
    rw [toggleTodo_getElem?, h1] at h2'
    have h2'' : some (if selected.ref = selected.ref
        then ({ ref := st.nextRef + i
                val := { text := selected.val.text, complete := !selected.val.complete } } : TodoObj)
        else selected) = some selected2 := h2'
    rw [if_pos rfl] at h2''
    exact (Option.some.inj h2'').symm
  rw [toggleTodo_getElem?, h2, hsel2]
  simp [Bool.not_not]

theorem toggle_twice_refetch_witness :
    singleState.todos[0]? = some sampleTodoA ∧
    (toggleTodo sampleTodoA singleState).todos[0]?
        = some { ref := 1, val := { text := "a", complete := true } } ∧
    ((toggleTodo { ref := 1, val := { text := "a", complete := true } }
        (toggleTodo sampleTodoA singleState)).todos[0]?).map TodoObj.val
      = some sampleTodoA.val :=
  ⟨by decide, by decide,
    toggle_twice_refetch singleState sampleTodoA _ 0 (by decide) (by decide)⟩

theorem subscribeN_subs (s : Store) (n : Nat) :
    (subscribeN s n).subs = s.subs ++ List.replicate n [] := by
  induction n generalizing s with
  | zero => simp [subscribeN]
  | succ m ih =>
    have hstep : subscribeN s (m + 1) = subscribeN s.subscribe m := rfl
    rw [hstep, ih, Store.subscribe, List.replicate_succ]
    simp

theorem subscribeN_state (s : Store) (n : Nat) :
    (subscribeN s n).state = s.state := by
  induction n generalizing s with
  | zero => rfl
  | succ m ih => exact ih s.subscribe

theorem runOps_subs (s : Store) (ops : List Op) :
    (runOps s ops).subs = s.subs.map (fun log => log ++ trace s.state ops) := by
  induction ops generalizing s with
  | nil => simp [runOps, trace]
  | cons op ops ih =>
    have hstep : runOps s (op :: ops) = runOps (s.apply op) ops := rfl
    rw [hstep, ih]
    have hstate : (s.apply op).state = applyOp s.state op := rfl
    rw [hstate]
    have hsubs : (s.apply op).subs
        = s.subs.map (fun log => log ++ [(applyOp s.state op).todos]) := rfl
    rw [hsubs, List.map_map, trace]
    apply List.map_congr_left
    intro log _
    simp [List.append_assoc]

theorem trace_length (st : AppState) (ops : List Op) :
    (trace st ops).length = ops.length := by
  induction ops generalizing st with
  | nil => rfl
  | cons op ops ih => simp [trace, ih]

theorem trace_getElem? (st : AppState) (ops : List Op) (k : Nat) :
    (trace st ops)[k]?
      = (ops[k]?).map (fun _ => (applyOps st (ops.take (k + 1))).todos) := by
  induction ops generalizing st k with
  | nil => simp [trace]
  | cons op ops ih =>
    cases k with
    | zero => simp [trace, applyOps]
    | succ j =>
      have htake : (op :: ops).take (j + 1 + 1) = op :: ops.take (j + 1) := rfl
      have hfold : applyOps st (op :: ops.take (j + 1))
          = applyOps (applyOp st op) (ops.take (j + 1)) := rfl
      simp only [trace, List.getElem?_cons_succ, htake, hfold]
      exact ih (applyOp st op) j

/-- C6: registering N observers on the store before M state-changing
operations results in every observer receiving exactly M calls, one per
state replacement, in registration order, each call carrying the
collection value current right after that operation (entry k of the trace
is the collection after the first k+1 operations). -/
theorem observer_fanout (st : AppState) (n : Nat) (ops : List Op) :
    (runOps (subscribeN { state := st, subs := [] } n) ops).subs
        = List.replicate n (trace st ops) ∧
    (trace st ops).length = ops.length ∧
    ∀ k : Nat,
      (trace st ops)[k]?
        = (ops[k]?).map (fun _ => (applyOps st (ops.take (k + 1))).todos) := by
  refine ⟨?_, trace_length st ops, trace_getElem? st ops⟩
  rw [runOps_subs, subscribeN_subs, subscribeN_state]
  simp

/-- C10: after every click of the add button, the local text state of the
form is reset to the empty string while the stored collection is the old
collection with the record carrying the submitted text (and
`complete = false`) appended: the submitted text survives only inside the
new record, not in the input field. -/
theorem click_resets_text_appends (fs : FormState) :
    (clickAddTodo fs).text = "" ∧
    (clickAddTodo fs).store.state.todos
        = fs.store.state.todos
          ++ [{ ref := fs.store.state.nextRef
                val := { text := fs.text, complete := false } }] := by
  constructor
  · rfl
  · simp [clickAddTodo, Store.commit, addTodo]

end Comparison
